import Mathlib

/-!
Verification of the ProDevTools mind-map module (MindMapPage) and the
storage initializers of the mind-map and tasks pages.

The mind-map tree, its mutation operations (add child, delete subtree,
rename), the radial layout, reset and export are embedded from the
source component. Node positions are modelled as real numbers
(the source uses JavaScript floating point for trigonometric placement).
-/

namespace ProDev

/-- MindMapNode mirrors the source interface: an identifier, display
content, an ordered list of children, optional 2D position and optional
display color. -/
inductive MindMapNode : Type where
  | mk (id : String) (content : String) (children : List MindMapNode)
       (x : Option ℝ) (y : Option ℝ) (color : Option String)

namespace MindMapNode

def id : MindMapNode → String
  | .mk i _ _ _ _ _ => i

def content : MindMapNode → String
  | .mk _ c _ _ _ _ => c

def children : MindMapNode → List MindMapNode
  | .mk _ _ ch _ _ _ => ch

def x : MindMapNode → Option ℝ
  | .mk _ _ _ px _ _ => px

def y : MindMapNode → Option ℝ
  | .mk _ _ _ _ py _ => py

def color : MindMapNode → Option String
  | .mk _ _ _ _ _ col => col

end MindMapNode

-- Observer: does a node with the given identifier occur in the tree
-- (the node itself or anything reachable through children)?
mutual

def occursB (nid : String) : MindMapNode → Bool
  | .mk i _ ch _ _ _ => i == nid || occursList nid ch

def occursList (nid : String) : List MindMapNode → Bool
  | [] => false
  | c :: cs => occursB nid c || occursList nid cs

end

-- Observer: total number of nodes in the tree.
mutual

def countNodes : MindMapNode → Nat
  | .mk _ _ ch _ _ _ => 1 + countList ch

def countList : List MindMapNode → Nat
  | [] => 0
  | c :: cs => countNodes c + countList cs

end

-- Observer: all identifiers of the tree, in depth-first pre-order.
mutual

def allIds : MindMapNode → List String
  | .mk i _ ch _ _ _ => i :: allIdsList ch

def allIdsList : List MindMapNode → List String
  | [] => []
  | c :: cs => allIds c ++ allIdsList cs

end

-- Observer: the first node (in depth-first pre-order, node before its
-- children) whose identifier matches, if any.
mutual

def findNode (nid : String) : MindMapNode → Option MindMapNode
  | .mk i c ch px py col =>
      if i = nid then some (.mk i c ch px py col) else findList nid ch

def findList (nid : String) : List MindMapNode → Option MindMapNode
  | [] => none
  | c :: cs =>
      match findNode nid c with
      | some r => some r
      | none => findList nid cs

end

-- Observer: number of topmost matches of an identifier, i.e. nodes whose
-- identifier matches and that have no matching proper ancestor.
mutual

def topMatches (nid : String) : MindMapNode → Nat
  | .mk i _ ch _ _ _ => if i = nid then 1 else topMatchesList nid ch

def topMatchesList (nid : String) : List MindMapNode → Nat
  | [] => 0
  | c :: cs => topMatches nid c + topMatchesList nid cs

end

-- Observer: the tree with every content field blanked; two trees have
-- equal eraseContent exactly when they agree on everything except
-- node contents.
mutual

def eraseContent : MindMapNode → MindMapNode
  | .mk i _ ch px py col => .mk i "" (eraseContentList ch) px py col

def eraseContentList : List MindMapNode → List MindMapNode
  | [] => []
  | c :: cs => eraseContent c :: eraseContentList cs

end

-- Observer: the tree with every stored position removed; two trees have
-- equal stripPos exactly when they agree on everything except positions.
mutual

def stripPos : MindMapNode → MindMapNode
  | .mk i c ch _ _ col => .mk i c (stripPosList ch) none none col

def stripPosList : List MindMapNode → List MindMapNode
  | [] => []
  | c :: cs => stripPos c :: stripPosList cs

end

/-- ShapeTree is the structural skeleton of a mind-map node: identifier,
content and child order, forgetting positions and colors. -/
inductive ShapeTree : Type where
  | mk (id : String) (content : String) (children : List ShapeTree)

-- Observer: the structural skeleton of a tree.
mutual

def shapeOf : MindMapNode → ShapeTree
  | .mk i c ch _ _ _ => .mk i c (shapeOfList ch)

def shapeOfList : List MindMapNode → List ShapeTree
  | [] => []
  | c :: cs => shapeOf c :: shapeOfList cs

end

/-! Tree operations embedded from the source component -/

-- Embeds removeNodeFromTree from deleteNode: at every level the children
-- whose identifier matches are dropped and the survivors are recursed
-- into.  The source filters the children list and then maps the
-- recursive call over the survivors; here the filter and the map are
-- fused into one pass over the list.
mutual

def removeNodeFromTree (nodeId : String) : MindMapNode → MindMapNode
  | .mk i c ch px py col => .mk i c (removeList nodeId ch) px py col

def removeList (nodeId : String) : List MindMapNode → List MindMapNode
  | [] => []
  | c :: cs =>
      if c.id = nodeId then removeList nodeId cs
      else removeNodeFromTree nodeId c :: removeList nodeId cs

end

/-- deleteNode from the source: deleting the identifier "root" is
rejected (the state is left unchanged, a warning toast is shown);
otherwise the tree is rewritten by removeNodeFromTree. -/
def deleteNode (nodeId : String) (root : MindMapNode) : MindMapNode :=
  if nodeId = "root" then root else removeNodeFromTree nodeId root

/-- newNodeOf is the node literal constructed in addChildNode: a fresh
identifier (the source derives it from the current time), the given
content (the source always passes "New Idea" and then opens the inline
editor), no children, no position, and a palette color (the source picks
it pseudo-randomly).  Identifier, content and color are parameters here
because they come from the environment (clock, random generator, edit
box). -/
def newNodeOf (newNodeId : String) (content : String) (color : String) : MindMapNode :=
  .mk newNodeId content [] none none (some color)

-- Embeds addChildToNode from addChildNode: if the node's identifier
-- matches the parent identifier the new node is appended to its
-- children (no recursion into them); otherwise the recursion maps over
-- the children.
mutual

def addChildToNode (parentId : String) (newNode : MindMapNode) : MindMapNode → MindMapNode
  | .mk i c ch px py col =>
      if i = parentId then .mk i c (ch ++ [newNode]) px py col
      else .mk i c (addChildList parentId newNode ch) px py col

def addChildList (parentId : String) (newNode : MindMapNode) : List MindMapNode → List MindMapNode
  | [] => []
  | c :: cs => addChildToNode parentId newNode c :: addChildList parentId newNode cs

end

/-- addChildNode from the source, with the generated identifier and the
chosen palette color as environment parameters: the constructed node
always has content "New Idea" and no children. -/
def addChildNode (parentId newNodeId color : String) (root : MindMapNode) : MindMapNode :=
  addChildToNode parentId (newNodeOf newNodeId "New Idea" color) root

-- Embeds updateNodeContent from saveNodeEdit: if the node's identifier
-- matches, only its content field is replaced (no recursion into its
-- children); otherwise the recursion maps over the children.
mutual

def updateNodeContent (editingNodeId newContent : String) : MindMapNode → MindMapNode
  | .mk i c ch px py col =>
      if i = editingNodeId then .mk i newContent ch px py col
      else .mk i c (updateList editingNodeId newContent ch) px py col

def updateList (editingNodeId newContent : String) : List MindMapNode → List MindMapNode
  | [] => []
  | c :: cs =>
      updateNodeContent editingNodeId newContent c :: updateList editingNodeId newContent cs

end

/-- resetMindMap from the source: the state is replaced by the default
single-root tree. -/
def resetMindMap : MindMapNode :=
  .mk "root" "Central Idea" [] (some 0) (some 0) (some "#9b87f5")

/-- setPos is the position-overwriting object spread used by
layoutMindMap on the root. -/
def setPos : MindMapNode → ℝ → ℝ → MindMapNode
  | .mk i c ch _ _ col, cx, cy => .mk i c ch (some cx) (some cy) col

-- Embeds the recursive layout of layoutChildren.  The source sets a
-- child's position and then recurses into the child it just positioned;
-- here that "position, then lay out the children from that position"
-- step is the function layoutAt, and layoutList walks the children list
-- carrying the parent position, the base angle, the angular step
-- (2*pi divided by the number of siblings), the distance and the child
-- index.  These definitions are noncomputable only because positions
-- are modelled as real numbers (the source computes with floating-point
-- Math.cos and Math.sin).
mutual

noncomputable def layoutAt : MindMapNode → ℝ → ℝ → ℝ → ℝ → MindMapNode
  | .mk i c ch _ _ col, cx, cy, angle, dist =>
      .mk i c (layoutList ch cx cy angle ((2 * Real.pi) / (ch.length : ℝ)) dist 0)
        (some cx) (some cy) col

noncomputable def layoutList :
    List MindMapNode → ℝ → ℝ → ℝ → ℝ → ℝ → ℕ → List MindMapNode
  | [], _, _, _, _, _, _ => []
  | c :: cs, px, py, angle, step, dist, idx =>
      layoutAt c (px + Real.cos (angle + (idx : ℝ) * step) * dist)
        (py + Real.sin (angle + (idx : ℝ) * step) * dist)
        (angle + (idx : ℝ) * step) (dist * 0.8)
        :: layoutList cs px py angle step dist (idx + 1)

end

/-- layoutChildren from the source: reads the node's stored position
(defaulting to 0), and positions each child at that position plus
(cos(childAngle) * distance, sin(childAngle) * distance), where
childAngle = angle + index * (2*pi / number of children); each child's
own children are then laid out from the child's fresh position with
incoming angle childAngle and distance * 0.8. -/
noncomputable def layoutChildren (n : MindMapNode) (angle dist : ℝ) : MindMapNode :=
  .mk n.id n.content
    (layoutList n.children (n.x.getD 0) (n.y.getD 0) angle
      ((2 * Real.pi) / (n.children.length : ℝ)) dist 0)
    n.x n.y n.color

/-- layoutMindMap from the source: the root is moved to the container's
geometric center and the children are laid out around it with starting
angle 0 and base distance 200. -/
noncomputable def layoutMindMap (w h : ℝ) (t : MindMapNode) : MindMapNode :=
  layoutChildren (setPos t (w / 2) (h / 2)) 0 200

/-! JSON values and a model of the platform JSON.parse

The pages persist their models with JSON.stringify and read them back
with JSON.parse inside a useState initializer.  JSON values are
modelled as a small inductive; numbers carry the exact rational value
of the decimal literal (the platform rounds to binary floating point,
a precision detail no claim depends on). -/

inductive Json : Type where
  | null
  | bool (b : Bool)
  | num (q : ℚ)
  | str (s : String)
  | arr (elems : List Json)
  | obj (fields : List (String × Json))

def isJsonWs (c : Char) : Bool :=
  c = ' ' || c = '\t' || c = '\n' || c = '\r'

def skipWs : List Char → List Char
  | [] => []
  | c :: cs => if isJsonWs c then skipWs cs else c :: cs

def hexVal (c : Char) : Option Nat :=
  if c.isDigit then some (c.toNat - 48)
  else if 'a' ≤ c ∧ c ≤ 'f' then some (c.toNat - 87)
  else if 'A' ≤ c ∧ c ≤ 'F' then some (c.toNat - 55)
  else none

-- Scans the body of a JSON string literal after the opening quote,
-- handling the escape sequences of the JSON grammar and rejecting raw
-- control characters.
def scanString (acc : List Char) : List Char → Option (String × List Char)
  | [] => none
  | '"' :: rest => some (String.mk acc.reverse, rest)
  | '\\' :: rest =>
      match rest with
      | '"' :: r => scanString ('"' :: acc) r
      | '\\' :: r => scanString ('\\' :: acc) r
      | '/' :: r => scanString ('/' :: acc) r
      | 'b' :: r => scanString (Char.ofNat 8 :: acc) r
      | 'f' :: r => scanString (Char.ofNat 12 :: acc) r
      | 'n' :: r => scanString ('\n' :: acc) r
      | 'r' :: r => scanString ('\r' :: acc) r
      | 't' :: r => scanString ('\t' :: acc) r
      | 'u' :: h1 :: h2 :: h3 :: h4 :: r =>
          match hexVal h1, hexVal h2, hexVal h3, hexVal h4 with
          | some a, some b, some c, some d =>
              scanString (Char.ofNat (((a * 16 + b) * 16 + c) * 16 + d) :: acc) r
          | _, _, _, _ => none
      | _ => none
  | c :: cs => if c.toNat < 32 then none else scanString (c :: acc) cs

def takeDigits : List Char → List Char × List Char
  | [] => ([], [])
  | c :: cs =>
      if c.isDigit then
        match takeDigits cs with
        | (ds, r) => (c :: ds, r)
      else ([], c :: cs)

def digitsToNat (ds : List Char) : Nat :=
  ds.foldl (fun a c => a * 10 + (c.toNat - 48)) 0

-- Optional fraction part of a JSON number (0 when absent).
def scanFrac : List Char → Option (ℚ × List Char)
  | '.' :: r =>
      match takeDigits r with
      | ([], _) => none
      | (ds, r1) => some ((digitsToNat ds : ℚ) / (10 : ℚ) ^ ds.length, r1)
  | cs => some (0, cs)

-- Optional exponent part of a JSON number (0 when absent).
def scanExp : List Char → Option (ℤ × List Char)
  | 'e' :: r =>
      (match r with
       | '+' :: r2 =>
           match takeDigits r2 with
           | ([], _) => none
           | (ds, r3) => some ((digitsToNat ds : ℤ), r3)
       | '-' :: r2 =>
           match takeDigits r2 with
           | ([], _) => none
           | (ds, r3) => some (-(digitsToNat ds : ℤ), r3)
       | _ =>
           match takeDigits r with
           | ([], _) => none
           | (ds, r3) => some ((digitsToNat ds : ℤ), r3))
  | 'E' :: r =>
      (match r with
       | '+' :: r2 =>
           match takeDigits r2 with
           | ([], _) => none
           | (ds, r3) => some ((digitsToNat ds : ℤ), r3)
       | '-' :: r2 =>
           match takeDigits r2 with
           | ([], _) => none
           | (ds, r3) => some (-(digitsToNat ds : ℤ), r3)
       | _ =>
           match takeDigits r with
           | ([], _) => none
           | (ds, r3) => some ((digitsToNat ds : ℤ), r3))
  | cs => some (0, cs)

-- Scans a JSON number: optional minus sign, an integer part with no
-- leading zero, an optional fraction and an optional exponent.
def scanNumber (cs : List Char) : Option (ℚ × List Char) :=
  match cs with
  | '-' :: cs1 => scanNumberCore true cs1
  | _ => scanNumberCore false cs
where
  scanNumberCore (neg : Bool) (cs1 : List Char) : Option (ℚ × List Char) :=
    match cs1 with
    | '0' :: r1 => scanNumberTail neg 0 r1
    | c :: _ =>
        if c.isDigit then
          match takeDigits cs1 with
          | (ds, r1) => scanNumberTail neg (digitsToNat ds) r1
        else none
    | [] => none
  scanNumberTail (neg : Bool) (intPart : Nat) (r1 : List Char) : Option (ℚ × List Char) :=
    match scanFrac r1 with
    | none => none
    | some (fr, r2) =>
        match scanExp r2 with
        | none => none
        | some (e, r3) =>
            some ((if neg then (-1 : ℚ) else 1) * ((intPart : ℚ) + fr) * (10 : ℚ) ^ e, r3)

-- Recursive-descent JSON value parser, total by a fuel argument that is
-- decremented at every step; jsonParse supplies ample fuel for its
-- input.
mutual

def parseVal : Nat → List Char → Option (Json × List Char)
  | 0, _ => none
  | fuel + 1, cs =>
      match skipWs cs with
      | 'n' :: 'u' :: 'l' :: 'l' :: rest => some (.null, rest)
      | 't' :: 'r' :: 'u' :: 'e' :: rest => some (.bool true, rest)
      | 'f' :: 'a' :: 'l' :: 's' :: 'e' :: rest => some (.bool false, rest)
      | '"' :: rest =>
          match scanString [] rest with
          | some (s, r) => some (.str s, r)
          | none => none
      | '[' :: rest =>
          (match skipWs rest with
           | ']' :: r => some (.arr [], r)
           | _ =>
               match parseElems fuel rest with
               | some (vs, r) => some (.arr vs, r)
               | none => none)
      | '{' :: rest =>
          (match skipWs rest with
           | '}' :: r => some (.obj [], r)
           | _ =>
               match parseFields fuel rest with
               | some (fs, r) => some (.obj fs, r)
               | none => none)
      | c :: rest =>
          if c = '-' ∨ c.isDigit then
            match scanNumber (c :: rest) with
            | some (q, r) => some (.num q, r)
            | none => none
          else none
      | [] => none

def parseElems : Nat → List Char → Option (List Json × List Char)
  | 0, _ => none
  | fuel + 1, cs =>
      match parseVal fuel cs with
      | none => none
      | some (v, r) =>
          match skipWs r with
          | ',' :: r2 =>
              (match parseElems fuel r2 with
               | some (vs, r3) => some (v :: vs, r3)
               | none => none)
          | ']' :: r2 => some ([v], r2)
          | _ => none

def parseFields : Nat → List Char → Option (List (String × Json) × List Char)
  | 0, _ => none
  | fuel + 1, cs =>
      match skipWs cs with
      | '"' :: r =>
          (match scanString [] r with
           | none => none
           | some (k, r1) =>
               match skipWs r1 with
               | ':' :: r2 =>
                   (match parseVal fuel r2 with
                    | none => none
                    | some (v, r3) =>
                        match skipWs r3 with
                        | ',' :: r4 =>
                            (match parseFields fuel r4 with
                             | some (fs, r5) => some ((k, v) :: fs, r5)
                             | none => none)
                        | '}' :: r4 => some ([(k, v)], r4)
                        | _ => none)
               | _ => none)
      | _ => none

end

/-- jsonParse models the platform JSON.parse: parse one value and
require that nothing but whitespace follows; any violation of the JSON
grammar is a failure (the platform throws a SyntaxError). -/
def jsonParse (s : String) : Option Json :=
  match parseVal (2 * s.data.length + 2) s.data with
  | some (v, rest) => if skipWs rest = [] then some v else none
  | none => none

/-! Storage initializers of MindMapPage and TasksPage -/

/-- InitResult is the outcome of a useState initializer: a value, or an
exception propagating out of the initializer. -/
inductive InitResult : Type where
  | ok (v : Json)
  | thrown

/-- defaultRootJson is the default root-node literal of MindMapPage as a
JSON value. -/
def defaultRootJson : Json :=
  .obj [("id", .str "root"), ("content", .str "Central Idea"), ("children", .arr []),
        ("x", .num 0), ("y", .num 0), ("color", .str "#9b87f5")]

/-- rootNodeInit embeds the MindMapPage useState initializer: when the
stored value is absent or empty (both falsy in the source's conditional)
the hardcoded default root is used; otherwise JSON.parse runs with no
surrounding try/catch, so a parse failure propagates as an exception. -/
def rootNodeInit (saved : Option String) : InitResult :=
  match saved with
  | none => .ok defaultRootJson
  | some s =>
      if s = "" then .ok defaultRootJson
      else
        match jsonParse s with
        | some v => .ok v
        | none => .thrown

/-- tasksInit embeds the TasksPage useState initializer: absent or empty
stored value gives the empty task list; otherwise JSON.parse runs with
no surrounding try/catch, so a parse failure propagates as an
exception. -/
def tasksInit (saved : Option String) : InitResult :=
  match saved with
  | none => .ok (.arr [])
  | some s =>
      if s = "" then .ok (.arr [])
      else
        match jsonParse s with
        | some v => .ok v
        | none => .thrown

/-! Serialization of the mind map

JSON.stringify turns the root node object into text and JSON.parse
turns that text back into a value; on values the composition is the
identity (platform contract of the JSON round trip).  What the
repository determines is how a node is laid down as a JSON value and
which parts of a parsed value the component consumes, so the round trip
is stated on JSON values.  Positions are floating-point numbers whose
printed form is platform-defined, so their encoding is an arbitrary
parameter. -/

mutual

def nodeToJson (penc : ℝ → Json) : MindMapNode → Json
  | .mk i c ch px py col =>
      .obj ([("id", .str i), ("content", .str c), ("children", .arr (listToJson penc ch))]
        ++ (match px with | some v => [("x", penc v)] | none => [])
        ++ (match py with | some v => [("y", penc v)] | none => [])
        ++ (match col with | some s => [("color", .str s)] | none => []))

def listToJson (penc : ℝ → Json) : List MindMapNode → List Json
  | [] => []
  | c :: cs => nodeToJson penc c :: listToJson penc cs

end

-- Reading a mind-map node back out of a parsed JSON value: the
-- component consumes the fields id, content and children (in the order
-- the source constructs them) and recurses through the children array;
-- any further fields (positions, color) are not part of the structural
-- identity.
mutual

def decodeShape : Json → Option ShapeTree
  | .obj (("id", .str i) :: ("content", .str c) :: ("children", .arr ch) :: _) =>
      (match decodeShapeList ch with
       | some l => some (.mk i c l)
       | none => none)
  | _ => none

def decodeShapeList : List Json → Option (List ShapeTree)
  | [] => some []
  | j :: js =>
      match decodeShape j, decodeShapeList js with
      | some s, some l => some (s :: l)
      | _, _ => none

end

/-- contentSet replaces only the content field of a node, the object
spread used by the match branch of updateNodeContent. -/
def contentSet : MindMapNode → String → MindMapNode
  | .mk i _ ch px py col, newContent => .mk i newContent ch px py col

/-- appendChild appends a node at the end of another node's children,
the object spread used by the match branch of addChildToNode. -/
def appendChild : MindMapNode → MindMapNode → MindMapNode
  | .mk i c ch px py col, nn => .mk i c (ch ++ [nn]) px py col

/-! Example trees used by witnesses -/

def egChildB : MindMapNode := .mk "b" "Idea B" [] none none none

def egChildA : MindMapNode := .mk "a" "Idea A" [egChildB] none none none

def egChildC : MindMapNode := .mk "c" "Idea C" [] none none none

def egTree : MindMapNode := .mk "root" "Central Idea" [egChildA, egChildC] none none none

/-- egFour is a root with four childless children, the first of which
carries one grandchild: the configuration named by the layout claim. -/
def egFour : MindMapNode :=
  .mk "root" "Central Idea"
    [.mk "c1" "C1" [.mk "g" "G" [] none none none] none none none,
     .mk "c2" "C2" [] none none none,
     .mk "c3" "C3" [] none none none,
     .mk "c4" "C4" [] none none none]
    none none none

/-! General lemmas about the embedding -/

theorem layoutAt_eq_layoutChildren (c : MindMapNode) (cx cy angle dist : ℝ) :
    layoutAt c cx cy angle dist = layoutChildren (setPos c cx cy) angle dist := by
  cases c with
  | mk i co ch px py col => rfl

/-! Deletion: helper lemmas and claim C1 -/

mutual

theorem remove_occurs_false (nid : String) :
    ∀ n : MindMapNode, n.id ≠ nid → occursB nid (removeNodeFromTree nid n) = false
  | .mk i c ch px py col, h => by
      simp only [MindMapNode.id] at h
      simp [removeNodeFromTree, occursB, h, removeList_occurs_false nid ch]

theorem removeList_occurs_false (nid : String) :
    ∀ l : List MindMapNode, occursList nid (removeList nid l) = false
  | [] => by simp [removeList, occursList]
  | c :: cs => by
      by_cases h : c.id = nid
      · simp [removeList, h, removeList_occurs_false nid cs]
      · simp [removeList, h, occursList, remove_occurs_false nid c h,
          removeList_occurs_false nid cs]

end

/-- C1: for every tree whose root is the distinguished "root" node and
every identifier present in the tree, deleteNode removes every node
carrying that identifier from the tree when the identifier is not the
root's, and leaves the tree unchanged (no-op) when the identifier is the
root's. -/
theorem deleteNode_removes_all (t : MindMapNode) (nid : String)
    (hroot : t.id = "root") (_hpres : occursB nid t = true) :
    (nid = "root" → deleteNode nid t = t) ∧
    (nid ≠ "root" → occursB nid (deleteNode nid t) = false) := by
  refine ⟨fun h => by simp [deleteNode, h], fun h => ?_⟩
  rw [deleteNode, if_neg h]
  exact remove_occurs_false nid t (by rw [hroot]; exact fun hh => h hh.symm)

/-- Witness for C1 at a concrete tree: deleting "a" from the example
tree removes it, and deleting "root" is a no-op. -/
theorem deleteNode_removes_all_witness :
    (occursB "a" (deleteNode "a" egTree) = false) ∧ (deleteNode "root" egTree = egTree) := by
  have h1 := deleteNode_removes_all egTree "a" (by decide) (by decide)
  have h2 := deleteNode_removes_all egTree "root" (by decide) (by decide)
  exact ⟨h1.2 (by decide), h2.1 rfl⟩

/-! Adding a child when the parent is absent: helper lemmas and claim C8 -/

mutual

theorem addChild_no_occurs (pid : String) (nn : MindMapNode) :
    ∀ n : MindMapNode, occursB pid n = false → addChildToNode pid nn n = n
  | .mk i c ch px py col, h => by
      simp only [occursB, Bool.or_eq_false_iff, beq_eq_false_iff_ne, ne_eq] at h
      simp [addChildToNode, h.1, addChildList_no_occurs pid nn ch h.2]

theorem addChildList_no_occurs (pid : String) (nn : MindMapNode) :
    ∀ l : List MindMapNode, occursList pid l = false → addChildList pid nn l = l
  | [], _ => by simp [addChildList]
  | c :: cs, h => by
      simp only [occursList, Bool.or_eq_false_iff] at h
      simp [addChildList, addChild_no_occurs pid nn c h.1,
        addChildList_no_occurs pid nn cs h.2]

end

/-- C8: adding a child under a parent identifier that occurs nowhere in
the tree is a no-op: the returned tree is structurally equal to the
input and no error is surfaced. -/
theorem addChild_absent_noop (t : MindMapNode) (pid : String) (nn : MindMapNode)
    (habs : occursB pid t = false) : addChildToNode pid nn t = t :=
  addChild_no_occurs pid nn t habs

/-- Witness for C8 at a concrete tree: adding under the absent
identifier "zzz" leaves the example tree unchanged. -/
theorem addChild_absent_noop_witness :
    addChildToNode "zzz" (newNodeOf "n1" "New Idea" "#9b87f5") egTree = egTree :=
  addChild_absent_noop egTree "zzz" (newNodeOf "n1" "New Idea" "#9b87f5") (by decide)

/-! Finding nodes: helper lemmas -/

mutual

theorem findNode_none_iff (nid : String) :
    ∀ n : MindMapNode, findNode nid n = none ↔ occursB nid n = false
  | .mk i c ch px py col => by
      by_cases hi : i = nid
      · simp [findNode, occursB, hi]
      · simp [findNode, occursB, hi, findList_none_iff nid ch]

theorem findList_none_iff (nid : String) :
    ∀ l : List MindMapNode, findList nid l = none ↔ occursList nid l = false
  | [] => by simp [findList, occursList]
  | c :: cs => by
      cases h : findNode nid c with
      | some m =>
          cases hb : occursB nid c with
          | false =>
              rw [(findNode_none_iff nid c).mpr hb] at h
              exact absurd h (by simp)
          | true => simp [findList, h, occursList, hb]
      | none =>
          simp [findList, h, occursList, (findNode_none_iff nid c).mp h,
            findList_none_iff nid cs]

end

/-! Renaming: helper lemmas and claim C6 -/

mutual

theorem update_eraseContent (nid x : String) :
    ∀ n : MindMapNode, eraseContent (updateNodeContent nid x n) = eraseContent n
  | .mk i c ch px py col => by
      by_cases hi : i = nid
      · simp [updateNodeContent, hi, eraseContent]
      · simp [updateNodeContent, hi, eraseContent, updateList_eraseContent nid x ch]

theorem updateList_eraseContent (nid x : String) :
    ∀ l : List MindMapNode, eraseContentList (updateList nid x l) = eraseContentList l
  | [] => by simp [updateList, eraseContentList]
  | c :: cs => by
      simp [updateList, eraseContentList, update_eraseContent nid x c,
        updateList_eraseContent nid x cs]

end

mutual

theorem update_no_occurs (nid x : String) :
    ∀ n : MindMapNode, occursB nid n = false → updateNodeContent nid x n = n
  | .mk i c ch px py col, h => by
      simp only [occursB, Bool.or_eq_false_iff, beq_eq_false_iff_ne, ne_eq] at h
      simp [updateNodeContent, h.1, updateList_no_occurs nid x ch h.2]

theorem updateList_no_occurs (nid x : String) :
    ∀ l : List MindMapNode, occursList nid l = false → updateList nid x l = l
  | [], _ => by simp [updateList]
  | c :: cs, h => by
      simp only [occursList, Bool.or_eq_false_iff] at h
      simp [updateList, update_no_occurs nid x c h.1, updateList_no_occurs nid x cs h.2]

end

mutual

theorem update_findNode (nid x : String) :
    ∀ n : MindMapNode,
      findNode nid (updateNodeContent nid x n) = (findNode nid n).map (fun m => contentSet m x)
  | .mk i c ch px py col => by
      by_cases hi : i = nid
      · simp [updateNodeContent, hi, findNode, contentSet]
      · simp [updateNodeContent, hi, findNode, updateList_findNode nid x ch]

theorem updateList_findNode (nid x : String) :
    ∀ l : List MindMapNode,
      findList nid (updateList nid x l) = (findList nid l).map (fun m => contentSet m x)
  | [] => by simp [updateList, findList]
  | c :: cs => by
      have hc := update_findNode nid x c
      cases h : findNode nid c with
      | some m =>
          rw [h] at hc
          simp [updateList, findList, h, hc]
      | none =>
          rw [h] at hc
          simp [updateList, findList, h, hc, updateList_findNode nid x cs]

end

mutual

theorem update_other (nid x oid : String) (hne : oid ≠ nid) :
    ∀ n : MindMapNode,
      (findNode oid (updateNodeContent nid x n)).map MindMapNode.content
        = (findNode oid n).map MindMapNode.content
  | .mk i c ch px py col => by
      have hno : ¬ nid = oid := fun hh => hne hh.symm
      by_cases hi : i = nid
      · by_cases ho : i = oid
        · exact absurd (by rw [← ho, hi]) hne
        · simp [updateNodeContent, hi, findNode, ho, hno]
      · by_cases ho : i = oid
        · simp [updateNodeContent, hi, findNode, ho, hne, hno, MindMapNode.content]
        · simp [updateNodeContent, hi, findNode, ho, updateList_other nid x oid hne ch]

theorem updateList_other (nid x oid : String) (hne : oid ≠ nid) :
    ∀ l : List MindMapNode,
      (findList oid (updateList nid x l)).map MindMapNode.content
        = (findList oid l).map MindMapNode.content
  | [] => by simp [updateList, findList]
  | c :: cs => by
      have hc := update_other nid x oid hne c
      cases h : findNode oid c with
      | some m =>
          rw [h] at hc
          cases h2 : findNode oid (updateNodeContent nid x c) with
          | some m2 =>
              rw [h2] at hc
              simp only [Option.map] at hc
              simp [updateList, findList, h, h2, hc]
          | none =>
              rw [h2] at hc
              simp at hc
      | none =>
          rw [h] at hc
          cases h2 : findNode oid (updateNodeContent nid x c) with
          | some m2 =>
              rw [h2] at hc
              simp at hc
          | none =>
              simp [updateList, findList, h, h2, updateList_other nid x oid hne cs]

end

/-- C6: renaming replaces only the content field: everything except
contents (identifiers, colors, positions, children lists and their
order) is unchanged, the first node found under the edited identifier
comes back with exactly its content replaced, the content seen under
any other identifier is unchanged, and renaming an identifier that
occurs nowhere leaves the tree structurally equal to the input (no-op,
no error raised). -/
theorem updateNode_frame (t : MindMapNode) (nid x : String) :
    eraseContent (updateNodeContent nid x t) = eraseContent t ∧
    findNode nid (updateNodeContent nid x t) = (findNode nid t).map (fun m => contentSet m x) ∧
    (∀ oid, oid ≠ nid →
      (findNode oid (updateNodeContent nid x t)).map MindMapNode.content
        = (findNode oid t).map MindMapNode.content) ∧
    (occursB nid t = false → updateNodeContent nid x t = t) :=
  ⟨update_eraseContent nid x t, update_findNode nid x t,
   fun oid hne => update_other nid x oid hne t, update_no_occurs nid x t⟩

/-- Witness for C6 at a concrete tree: renaming "a" keeps the skeleton,
returns "a" with the new content, leaves "b" alone, and renaming the
absent identifier "zzz" is a no-op. -/
theorem updateNode_frame_witness :
    eraseContent (updateNodeContent "a" "Renamed" egTree) = eraseContent egTree ∧
    findNode "a" (updateNodeContent "a" "Renamed" egTree)
      = (findNode "a" egTree).map (fun m => contentSet m "Renamed") ∧
    (findNode "b" (updateNodeContent "a" "Renamed" egTree)).map MindMapNode.content
      = (findNode "b" egTree).map MindMapNode.content ∧
    updateNodeContent "zzz" "Renamed" egTree = egTree := by
  have h1 := updateNode_frame egTree "a" "Renamed"
  have h2 := updateNode_frame egTree "zzz" "Renamed"
  exact ⟨h1.1, h1.2.1, h1.2.2.1 "b" (by decide), h2.2.2.2 (by decide)⟩

/-! Root preservation: helper lemmas and claim C9 -/

theorem removeNodeFromTree_id (nid : String) (n : MindMapNode) :
    (removeNodeFromTree nid n).id = n.id := by
  cases n with
  | mk i c ch px py col => simp [removeNodeFromTree, MindMapNode.id]

theorem addChildToNode_id (pid : String) (nn n : MindMapNode) :
    (addChildToNode pid nn n).id = n.id := by
  cases n with
  | mk i c ch px py col =>
      by_cases h : i = pid <;> simp [addChildToNode, h, MindMapNode.id]

theorem updateNodeContent_id (nid x : String) (n : MindMapNode) :
    (updateNodeContent nid x n).id = n.id := by
  cases n with
  | mk i c ch px py col =>
      by_cases h : i = nid <;> simp [updateNodeContent, h, MindMapNode.id]

theorem setPos_id (n : MindMapNode) (cx cy : ℝ) : (setPos n cx cy).id = n.id := by
  cases n with
  | mk i c ch px py col => simp [setPos, MindMapNode.id]

theorem layoutChildren_id (n : MindMapNode) (angle dist : ℝ) :
    (layoutChildren n angle dist).id = n.id := rfl

theorem layoutMindMap_id (w h : ℝ) (t : MindMapNode) :
    (layoutMindMap w h t).id = t.id := by
  rw [layoutMindMap, layoutChildren_id, setPos_id]

/-- C9: every tree operation of the page preserves the distinguished
root: given a tree whose root identifier is "root", deletion never
removes or renames the root (deleting "root" is rejected as a no-op),
and adding a child, renaming, laying out and resetting all yield a tree
whose root identifier is again the fixed string "root". -/
theorem root_invariant (t : MindMapNode) (hroot : t.id = "root")
    (nid pid x nnid ncol : String) (w h : ℝ) :
    (deleteNode nid t).id = "root" ∧
    deleteNode "root" t = t ∧
    (addChildNode pid nnid ncol t).id = "root" ∧
    (updateNodeContent nid x t).id = "root" ∧
    (layoutMindMap w h t).id = "root" ∧
    resetMindMap.id = "root" := by
  refine ⟨?_, by simp [deleteNode], ?_, ?_, ?_, rfl⟩
  · by_cases h : nid = "root"
    · simp [deleteNode, h, hroot]
    · simp [deleteNode, h, removeNodeFromTree_id, hroot]
  · rw [addChildNode, addChildToNode_id, hroot]
  · rw [updateNodeContent_id, hroot]
  · rw [layoutMindMap_id, hroot]

/-- Witness for C9 at a concrete tree and concrete operation
arguments. -/
theorem root_invariant_witness :
    (deleteNode "a" egTree).id = "root" ∧
    deleteNode "root" egTree = egTree ∧
    (addChildNode "a" "n1" "#FFDEE2" egTree).id = "root" ∧
    (updateNodeContent "a" "Renamed" egTree).id = "root" ∧
    (layoutMindMap 800 600 egTree).id = "root" ∧
    resetMindMap.id = "root" :=
  root_invariant egTree (by decide) "a" "a" "Renamed" "n1" "#FFDEE2" 800 600

/-! Adding a child: helper lemmas and claim C2 -/

theorem countList_append (l1 l2 : List MindMapNode) :
    countList (l1 ++ l2) = countList l1 + countList l2 := by
  induction l1 with
  | nil => simp [countList]
  | cons c cs ih => simp [countList, ih, Nat.add_assoc]

mutual

theorem addChild_count (pid : String) (nn : MindMapNode) :
    ∀ n : MindMapNode,
      countNodes (addChildToNode pid nn n) = countNodes n + countNodes nn * topMatches pid n
  | .mk i c ch px py col => by
      by_cases hi : i = pid
      · simp [addChildToNode, hi, countNodes, topMatches, countList_append, countList]
        ring
      · simp [addChildToNode, hi, countNodes, topMatches, addChildList_count pid nn ch]
        ring

theorem addChildList_count (pid : String) (nn : MindMapNode) :
    ∀ l : List MindMapNode,
      countList (addChildList pid nn l) = countList l + countNodes nn * topMatchesList pid l
  | [] => by simp [addChildList, countList, topMatchesList]
  | c :: cs => by
      simp [addChildList, countList, topMatchesList, addChild_count pid nn c,
        addChildList_count pid nn cs, Nat.mul_add]
      ring

end

mutual

theorem occurs_topMatches (pid : String) :
    ∀ n : MindMapNode, occursB pid n = true → 1 ≤ topMatches pid n
  | .mk i c ch px py col, h => by
      by_cases hi : i = pid
      · simp [topMatches, hi]
      · simp only [occursB, Bool.or_eq_true, beq_iff_eq] at h
        rcases h with h | h
        · exact absurd h hi
        · simp only [topMatches, if_neg hi]
          exact occursList_topMatches pid ch h

theorem occursList_topMatches (pid : String) :
    ∀ l : List MindMapNode, occursList pid l = true → 1 ≤ topMatchesList pid l
  | [], h => by simp [occursList] at h
  | c :: cs, h => by
      simp only [occursList, Bool.or_eq_true] at h
      rcases h with h | h
      · have := occurs_topMatches pid c h
        simp only [topMatchesList]
        omega
      · have := occursList_topMatches pid cs h
        simp only [topMatchesList]
        omega

end

mutual

theorem topMatches_le_count (pid : String) :
    ∀ n : MindMapNode, topMatches pid n ≤ (allIds n).count pid
  | .mk i c ch px py col => by
      by_cases hi : i = pid
      · simp [topMatches, hi, allIds, List.count_cons]
      · have := topMatchesList_le_count pid ch
        simp [topMatches, hi, allIds, List.count_cons]
        omega

theorem topMatchesList_le_count (pid : String) :
    ∀ l : List MindMapNode, topMatchesList pid l ≤ (allIdsList l).count pid
  | [] => by simp [topMatchesList, allIdsList]
  | c :: cs => by
      have h1 := topMatches_le_count pid c
      have h2 := topMatchesList_le_count pid cs
      simp [topMatchesList, allIdsList, List.count_append]
      omega

end

theorem findNode_some_occurs (nid : String) (n m : MindMapNode)
    (h : findNode nid n = some m) : occursB nid n = true := by
  cases hb : occursB nid n with
  | false =>
      rw [(findNode_none_iff nid n).mpr hb] at h
      exact absurd h (by simp)
  | true => rfl

mutual

theorem addChild_findNode (pid : String) (nn : MindMapNode) :
    ∀ n m : MindMapNode, findNode pid n = some m →
      findNode pid (addChildToNode pid nn n) = some (appendChild m nn)
  | .mk i c ch px py col, m, h => by
      by_cases hi : i = pid
      · rw [findNode, if_pos hi] at h
        injection h with h
        rw [← h]
        simp [addChildToNode, hi, findNode, appendChild]
      · rw [findNode, if_neg hi] at h
        simp [addChildToNode, hi, findNode, addChildList_findNode pid nn ch m h]

theorem addChildList_findNode (pid : String) (nn : MindMapNode) :
    ∀ l : List MindMapNode, ∀ m : MindMapNode, findList pid l = some m →
      findList pid (addChildList pid nn l) = some (appendChild m nn)
  | [], m, h => by
      simp [findList] at h
  | c :: cs, m, h => by
      cases hf : findNode pid c with
      | some m2 =>
          simp only [findList, hf] at h
          injection h with h
          rw [← h]
          have := addChild_findNode pid nn c m2 hf
          simp [addChildList, findList, this]
      | none =>
          simp only [findList, hf] at h
          have hocc := (findNode_none_iff pid c).mp hf
          have hnoop := addChild_no_occurs pid nn c hocc
          simp [addChildList, findList, hnoop, hf, addChildList_findNode pid nn cs m h]

end

/-- C2: when the parent identifier names a node of the tree (with the
uniqueness of identifiers the source assumes), adding a child produces
a tree with exactly one more node, and the located parent comes back
with the new node appended at the end of its children; the new node has
the given content and an empty children list.  The source's
addChildNode instantiates the content with "New Idea" before opening
the inline editor. -/
theorem addChild_count_and_append (t : MindMapNode) (pid nnid x ncol : String)
    (p : MindMapNode) (hnd : (allIds t).Nodup) (hfind : findNode pid t = some p) :
    countNodes (addChildToNode pid (newNodeOf nnid x ncol) t) = countNodes t + 1 ∧
    findNode pid (addChildToNode pid (newNodeOf nnid x ncol) t)
      = some (appendChild p (newNodeOf nnid x ncol)) ∧
    (newNodeOf nnid x ncol).content = x ∧
    (newNodeOf nnid x ncol).children = [] := by
  have hocc := findNode_some_occurs pid t p hfind
  have h1 := occurs_topMatches pid t hocc
  have h2 := topMatches_le_count pid t
  have h3 : (allIds t).count pid ≤ 1 := List.nodup_iff_count_le_one.mp hnd pid
  have htop : topMatches pid t = 1 := by omega
  have hcount := addChild_count pid (newNodeOf nnid x ncol) t
  rw [htop] at hcount
  have hnn : countNodes (newNodeOf nnid x ncol) = 1 := by
    simp [newNodeOf, countNodes, countList]
  refine ⟨?_, addChild_findNode pid (newNodeOf nnid x ncol) t p hfind, rfl, rfl⟩
  rw [hcount, hnn]

/-- Witness for C2 at a concrete tree: adding under "a" in the example
tree. -/
theorem addChild_count_and_append_witness :
    countNodes (addChildToNode "a" (newNodeOf "n1" "Sub Idea" "#FFDEE2") egTree)
      = countNodes egTree + 1 ∧
    findNode "a" (addChildToNode "a" (newNodeOf "n1" "Sub Idea" "#FFDEE2") egTree)
      = some (appendChild egChildA (newNodeOf "n1" "Sub Idea" "#FFDEE2")) ∧
    (newNodeOf "n1" "Sub Idea" "#FFDEE2").content = "Sub Idea" ∧
    (newNodeOf "n1" "Sub Idea" "#FFDEE2").children = [] :=
  addChild_count_and_append egTree "a" "n1" "Sub Idea" "#FFDEE2" egChildA (by decide) rfl

/-! Layout: helper lemmas and claims C4 and C10 -/

theorem layoutList_length :
    ∀ (l : List MindMapNode) (px py angle step dist : ℝ) (idx : ℕ),
      (layoutList l px py angle step dist idx).length = l.length
  | [], _, _, _, _, _, _ => by simp [layoutList]
  | c :: cs, px, py, angle, step, dist, idx => by
      simp [layoutList, layoutList_length cs px py angle step dist (idx + 1)]

theorem stripPosList_length :
    ∀ l : List MindMapNode, (stripPosList l).length = l.length
  | [] => by simp [stripPosList]
  | c :: cs => by simp [stripPosList, stripPosList_length cs]

mutual

theorem layoutAt_idem :
    ∀ (c : MindMapNode) (cx cy angle dist : ℝ),
      layoutAt (layoutAt c cx cy angle dist) cx cy angle dist = layoutAt c cx cy angle dist
  | .mk i co ch px py col, cx, cy, angle, dist => by
      simp only [layoutAt]
      rw [layoutList_length]
      rw [layoutList_idem ch cx cy angle ((2 * Real.pi) / (ch.length : ℝ)) dist 0]

theorem layoutList_idem :
    ∀ (l : List MindMapNode) (px py angle step dist : ℝ) (idx : ℕ),
      layoutList (layoutList l px py angle step dist idx) px py angle step dist idx
        = layoutList l px py angle step dist idx
  | [], _, _, _, _, _, _ => by simp [layoutList]
  | c :: cs, px, py, angle, step, dist, idx => by
      simp only [layoutList]
      rw [layoutAt_idem c _ _ _ _, layoutList_idem cs px py angle step dist (idx + 1)]

end

mutual

theorem layoutAt_strip :
    ∀ (c : MindMapNode) (cx cy angle dist : ℝ),
      layoutAt (stripPos c) cx cy angle dist = layoutAt c cx cy angle dist
  | .mk i co ch px py col, cx, cy, angle, dist => by
      simp only [stripPos, layoutAt]
      rw [stripPosList_length]
      rw [layoutList_strip ch cx cy angle ((2 * Real.pi) / (ch.length : ℝ)) dist 0]

theorem layoutList_strip :
    ∀ (l : List MindMapNode) (px py angle step dist : ℝ) (idx : ℕ),
      layoutList (stripPosList l) px py angle step dist idx
        = layoutList l px py angle step dist idx
  | [], _, _, _, _, _, _ => by simp [stripPosList, layoutList]
  | c :: cs, px, py, angle, step, dist, idx => by
      simp only [stripPosList, layoutList]
      rw [layoutAt_strip c _ _ _ _, layoutList_strip cs px py angle step dist (idx + 1)]

end

/-- C4: the layout is a pure function of the tree shape and the
container size: overwriting every previously stored position (stripPos)
does not change the result, and applying the layout twice equals
applying it once, so repeated invocations assign identical positions
with no accumulated drift. -/
theorem layout_deterministic_idempotent :
    (∀ (t : MindMapNode) (w h : ℝ),
      layoutMindMap w h (layoutMindMap w h t) = layoutMindMap w h t) ∧
    (∀ (t : MindMapNode) (w h : ℝ),
      layoutMindMap w h (stripPos t) = layoutMindMap w h t) := by
  constructor
  · intro t w h
    cases t with
    | mk i c ch px py col =>
        simp only [layoutMindMap, setPos, layoutChildren, MindMapNode.id,
          MindMapNode.content, MindMapNode.children, MindMapNode.x, MindMapNode.y,
          MindMapNode.color, Option.getD]
        rw [layoutList_length]
        rw [layoutList_idem]
  · intro t w h
    cases t with
    | mk i c ch px py col =>
        simp only [layoutMindMap, stripPos, setPos, layoutChildren, MindMapNode.id,
          MindMapNode.content, MindMapNode.children, MindMapNode.x, MindMapNode.y,
          MindMapNode.color, Option.getD]
        rw [stripPosList_length]
        rw [layoutList_strip]

mutual

theorem stripPos_layoutAt :
    ∀ (c : MindMapNode) (cx cy angle dist : ℝ),
      stripPos (layoutAt c cx cy angle dist) = stripPos c
  | .mk i co ch px py col, cx, cy, angle, dist => by
      simp only [layoutAt, stripPos]
      rw [stripPosList_layoutList ch cx cy angle ((2 * Real.pi) / (ch.length : ℝ)) dist 0]

theorem stripPosList_layoutList :
    ∀ (l : List MindMapNode) (px py angle step dist : ℝ) (idx : ℕ),
      stripPosList (layoutList l px py angle step dist idx) = stripPosList l
  | [], _, _, _, _, _, _ => by simp [stripPosList, layoutList]
  | c :: cs, px, py, angle, step, dist, idx => by
      simp only [layoutList, stripPosList]
      rw [stripPos_layoutAt c _ _ _ _, stripPosList_layoutList cs px py angle step dist (idx + 1)]

end

/-- C10: the layout pass writes only the position fields: stripping the
positions from the laid-out tree gives back the stripped input, so
every identifier, content, color and children list (membership and
order) is exactly what it was before. -/
theorem layout_writes_only_positions (t : MindMapNode) (w h : ℝ) :
    stripPos (layoutMindMap w h t) = stripPos t := by
  cases t with
  | mk i c ch px py col =>
      simp only [layoutMindMap, setPos, layoutChildren, MindMapNode.id,
        MindMapNode.content, MindMapNode.children, MindMapNode.x, MindMapNode.y,
        MindMapNode.color, Option.getD, stripPos]
      rw [stripPosList_layoutList]

/-! Layout: the radial placement formula and claim C3 -/

theorem layoutList_getElem :
    ∀ (l : List MindMapNode) (px py angle step dist : ℝ) (idx i : ℕ),
      (layoutList l px py angle step dist idx)[i]?
        = (l[i]?).map (fun c =>
            layoutAt c (px + Real.cos (angle + ((idx + i : ℕ) : ℝ) * step) * dist)
              (py + Real.sin (angle + ((idx + i : ℕ) : ℝ) * step) * dist)
              (angle + ((idx + i : ℕ) : ℝ) * step) (dist * 0.8))
  | [], _, _, _, _, _, _, _ => by simp [layoutList]
  | c :: cs, px, py, angle, step, dist, idx, 0 => by
      simp [layoutList]
  | c :: cs, px, py, angle, step, dist, idx, (j + 1) => by
      have ih := layoutList_getElem cs px py angle step dist (idx + 1) j
      have harith : idx + 1 + j = idx + (j + 1) := by omega
      rw [harith] at ih
      simp [layoutList, ih]

theorem cos_two_pi_div_four : Real.cos (2 * Real.pi / 4) = 0 := by
  rw [show 2 * Real.pi / 4 = Real.pi / 2 by ring, Real.cos_pi_div_two]

theorem sin_two_pi_div_four : Real.sin (2 * Real.pi / 4) = 1 := by
  rw [show 2 * Real.pi / 4 = Real.pi / 2 by ring, Real.sin_pi_div_two]

theorem cos_two_mul_two_pi_div_four : Real.cos (2 * (2 * Real.pi / 4)) = -1 := by
  rw [show (2 : ℝ) * (2 * Real.pi / 4) = Real.pi by ring, Real.cos_pi]

theorem sin_two_mul_two_pi_div_four : Real.sin (2 * (2 * Real.pi / 4)) = 0 := by
  rw [show (2 : ℝ) * (2 * Real.pi / 4) = Real.pi by ring, Real.sin_pi]

theorem cos_three_mul_two_pi_div_four : Real.cos (3 * (2 * Real.pi / 4)) = 0 := by
  rw [show (3 : ℝ) * (2 * Real.pi / 4) = Real.pi + Real.pi / 2 by ring, Real.cos_add]
  simp [Real.cos_pi, Real.sin_pi, Real.cos_pi_div_two, Real.sin_pi_div_two]

theorem sin_three_mul_two_pi_div_four : Real.sin (3 * (2 * Real.pi / 4)) = -1 := by
  rw [show (3 : ℝ) * (2 * Real.pi / 4) = Real.pi + Real.pi / 2 by ring, Real.sin_add]
  simp [Real.cos_pi, Real.sin_pi, Real.cos_pi_div_two, Real.sin_pi_div_two]

/-- C3: the radial layout places the root at the container's geometric
center; the i-th of a node's k children receives the angle
(incoming angle + i * 2*pi/k) — starting angle 0 for the root's
children — and the position (parent position + (dist * cos, dist * sin
of that angle)), its own subtree continuing with distance dist * 0.8;
concretely, a root with four children at base distance 200 and decay
0.8 has its children at angles 0, pi/2, pi, 3*pi/2 at radius 200 from
the center, and the grandchild at radius 160 from its parent. -/
theorem radial_layout_spec (n : MindMapNode) (angle dist : ℝ) (i : ℕ) (w h : ℝ) :
    ((layoutChildren n angle dist).children[i]?
      = (n.children[i]?).map (fun c =>
          layoutAt c
            (n.x.getD 0 + Real.cos (angle + (i : ℝ) * (2 * Real.pi / (n.children.length : ℝ))) * dist)
            (n.y.getD 0 + Real.sin (angle + (i : ℝ) * (2 * Real.pi / (n.children.length : ℝ))) * dist)
            (angle + (i : ℝ) * (2 * Real.pi / (n.children.length : ℝ)))
            (dist * 0.8))) ∧
    layoutMindMap w h egFour =
      .mk "root" "Central Idea"
        [.mk "c1" "C1" [.mk "g" "G" [] (some (w / 2 + 360)) (some (h / 2)) none]
           (some (w / 2 + 200)) (some (h / 2)) none,
         .mk "c2" "C2" [] (some (w / 2)) (some (h / 2 + 200)) none,
         .mk "c3" "C3" [] (some (w / 2 - 200)) (some (h / 2)) none,
         .mk "c4" "C4" [] (some (w / 2)) (some (h / 2 - 200)) none]
        (some (w / 2)) (some (h / 2)) none := by
  constructor
  · have hg := layoutList_getElem n.children (n.x.getD 0) (n.y.getD 0) angle
      ((2 * Real.pi) / (n.children.length : ℝ)) dist 0 i
    rw [Nat.zero_add] at hg
    simpa [layoutChildren, MindMapNode.children] using hg
  · simp only [egFour, layoutMindMap, setPos, layoutChildren, MindMapNode.id,
      MindMapNode.content, MindMapNode.children, MindMapNode.x, MindMapNode.y,
      MindMapNode.color, Option.getD, layoutList, layoutAt, List.length_cons,
      List.length_nil]
    norm_num [Real.cos_zero, Real.sin_zero, cos_two_pi_div_four, sin_two_pi_div_four,
      cos_two_mul_two_pi_div_four, sin_two_mul_two_pi_div_four,
      cos_three_mul_two_pi_div_four, sin_three_mul_two_pi_div_four]
    exact ⟨by ring, by ring, by ring⟩

/-! Serialization round trip: helper lemmas and claim C7 -/

mutual

theorem decodeShape_nodeToJson (penc : ℝ → Json) :
    ∀ n : MindMapNode, decodeShape (nodeToJson penc n) = some (shapeOf n)
  | .mk i c ch px py col => by
      have hl := decodeShapeList_listToJson penc ch
      simp [nodeToJson, decodeShape, shapeOf, hl]

theorem decodeShapeList_listToJson (penc : ℝ → Json) :
    ∀ l : List MindMapNode, decodeShapeList (listToJson penc l) = some (shapeOfList l)
  | [] => by simp [listToJson, decodeShapeList, shapeOfList]
  | c :: cs => by
      simp [listToJson, decodeShapeList, shapeOfList, decodeShape_nodeToJson penc c,
        decodeShapeList_listToJson penc cs]

end

/-- C7: serializing any mind-map tree to its exported JSON value and
reading the parsed value back structurally yields exactly the tree's
skeleton: the same identifiers, the same contents and the same child
order, for every encoding of the (derived, not required to match)
positions. -/
theorem export_roundtrip (penc : ℝ → Json) (t : MindMapNode) :
    decodeShape (nodeToJson penc t) = some (shapeOf t) :=
  decodeShape_nodeToJson penc t

/-! Storage initializers: claim C5 (corrected) -/

/-- C5 counterexample: the stored one-character string holding a single
opening brace is not valid JSON, yet initializing from it does not
yield the hardcoded default model of either page — the claim as stated
is false on the code. -/
theorem storage_init_counterexample :
    rootNodeInit (some "\x7b") ≠ .ok defaultRootJson ∧
    tasksInit (some "\x7b") ≠ .ok (.arr []) := by
  constructor
  · rw [show rootNodeInit (some "\x7b") = .thrown from rfl]
    simp
  · rw [show tasksInit (some "\x7b") = .thrown from rfl]
    simp

/-- C5 as amended: when nothing is stored the initializers yield the
hardcoded defaults, but a stored nonempty string that fails to parse as
JSON makes the initializer throw (the parse failure propagates out of
the unguarded JSON.parse call; it is not absorbed into the default). -/
theorem storage_init_amended :
    rootNodeInit none = .ok defaultRootJson ∧
    tasksInit none = .ok (.arr []) ∧
    (∀ s : String, jsonParse s = none → s ≠ "" →
      rootNodeInit (some s) = .thrown ∧ tasksInit (some s) = .thrown) := by
  refine ⟨rfl, rfl, fun s hp hne => ?_⟩
  constructor
  · simp [rootNodeInit, hne, hp]
  · simp [tasksInit, hne, hp]

/-- Witness for the amended C5 at the concrete malformed stored string
holding a single opening brace. -/
theorem storage_init_amended_witness :
    jsonParse "\x7b" = none ∧ ("\x7b" : String) ≠ "" ∧
    rootNodeInit (some "\x7b") = .thrown ∧ tasksInit (some "\x7b") = .thrown := by
  have h := storage_init_amended.2.2 "\x7b" rfl (by decide)
  exact ⟨rfl, by decide, h.1, h.2⟩

end ProDev
